import Mathlib

/-!
# webpack-minimal-sentry-plugin: a shallow embedding of `src/index.js`

The plugin registers a release with the Sentry service after webpack has emitted
its assets, uploads the emitted `.js` and `.map` files as release files and, when
asked to, deletes the sourcemaps once the build is done.

Modelling conventions.

* A JavaScript string is a Lean `String`; an optional or possibly missing value
  (`undefined`) is `none`.
* A JavaScript object used as a dictionary (`compilation.assets`) is the list of
  its `(key, value)` entries in `Object.keys` order.
* A thrown exception or a rejected promise is the `error` case of `Except`.
* Calls to the outside world (the Sentry client, the file system) are recorded
  in explicit traces; what the outside world answers is an argument of the
  model.
-/

namespace WebpackMinimalSentry

/-! ## JavaScript values -/

/-- A JavaScript `Error` value, identified by its message. -/
structure JSError where
  message : String
  deriving DecidableEq, Repr

/-- Truthiness of a string-valued property that may be missing: `undefined` and
the empty string are falsy, every other string is truthy. -/
def truthy : Option String → Bool
  | none => false
  | some s => s != ""

/-- The method `Array.prototype.pop`: the last element (or `undefined`) and the array that
is left. -/
def pop {α : Type} (xs : List α) : Option α × List α :=
  (xs.getLast?, xs.dropLast)

/-! ## Regular expressions `/<literal>$/` -/

/-- A regular expression made of literal characters followed by the end-of-input
assertion `$` (no flags), such as `/\.js$/`. -/
structure RegExp where
  literal : List Char
  deriving DecidableEq, Repr

/-- Match the pattern at the very start of `input`: the literal characters one by
one, then `$`, which holds only where the input ends. -/
def RegExp.matchHere : List Char → List Char → Bool
  | [], input => input.isEmpty
  | _ :: _, [] => false
  | c :: cs, d :: input => c == d && RegExp.matchHere cs input

/-- Try a match at every start position of `input`, from left to right. -/
def RegExp.search (pattern : List Char) : List Char → Bool
  | [] => RegExp.matchHere pattern []
  | d :: input => RegExp.matchHere pattern (d :: input) || RegExp.search pattern input

/-- The method `RegExp.prototype.test`: is there a match anywhere in the string. -/
def RegExp.test (r : RegExp) (s : String) : Bool :=
  RegExp.search r.literal s.data

/-- The constant `JS_REGEXP = /\.js$/`. -/
def JS_REGEXP : RegExp := ⟨['.', 'j', 's']⟩

/-- The constant `SOURCEMAP_REGEXP = /\.map$/`. -/
def SOURCEMAP_REGEXP : RegExp := ⟨['.', 'm', 'a', 'p']⟩

/-! ## Data model -/

/-- The type `Options`. The four required properties are strings that a caller may
leave out; `uploadConcurrency` is a natural number when present. -/
structure Options where
  authToken : Option String
  organization : Option String
  project : Option String
  version : Option String
  deleteSourcemaps : Option Bool
  filenameTransform : Option (String → String)
  uploadConcurrency : Option Nat

/-- The type `SourceFileInfos`. -/
structure SourceFileInfos where
  name : String
  path : String
  deriving DecidableEq, Repr

/-- A webpack asset; only `existsAt` is read by the plugin. -/
structure Asset where
  existsAt : String
  deriving DecidableEq, Repr

/-- The `assets` dictionary: its entries in `Object.keys` order. -/
abbrev AssetMap := List (String × Asset)

/-- The keys `Object.keys(assets)`, in enumeration order. -/
def AssetMap.keys (assets : AssetMap) : List String :=
  assets.map Prod.fst

/-- The property read `assets[name]`; reading a property of the `undefined` it
yields for an unknown name throws a `TypeError`. -/
def AssetMap.read (assets : AssetMap) (name : String) : Except JSError Asset :=
  match assets.lookup name with
  | some asset => .ok asset
  | none => .error ⟨"TypeError: Cannot read properties of undefined"⟩

/-- The `compilation` object handed to the `afterEmit` hook. -/
structure Compilation where
  assets : AssetMap

/-- The `stats` object handed to the `done` hook. -/
structure Stats where
  compilation : Compilation

/-- The `sentry-api` client, as far as the plugin configures it. -/
structure Sentry where
  token : Option String
  deriving DecidableEq, Repr

/-- A request sent to the Sentry service through the client. -/
inductive ServiceCall where
  | releasesCreate (organization project version : Option String)
  | releasesCreateFile (organization project version : Option String)
      (name : String) (file : String)
  deriving DecidableEq, Repr

/-- What an operation does to the outside world. -/
inductive Effect where
  | newClient (client : Sentry)
  | request (call : ServiceCall)
  deriving DecidableEq, Repr

/-- The class `WebpackMinimalSentryPlugin`: its two fields. -/
structure WebpackMinimalSentryPlugin where
  client : Sentry
  options : Options

/-! ## Construction -/

/-- The method `validateOptions(opts)`: throws for the first required option that is falsy. -/
def WebpackMinimalSentryPlugin.validateOptions (opts : Options) : Except JSError Unit :=
  if !truthy opts.authToken then
    .error ⟨"Invalid configuration, <authToken> was not provided"⟩
  else if !truthy opts.organization then
    .error ⟨"Invalid configuration, <organization> was not provided"⟩
  else if !truthy opts.project then
    .error ⟨"Invalid configuration, <project> was not provided"⟩
  else if !truthy opts.version then
    .error ⟨"Invalid configuration, <version> was not provided"⟩
  else
    .ok ()

/-- The `constructor(opts)`: the instance built, or the error thrown, together with
the effects performed on the way. -/
def WebpackMinimalSentryPlugin.new (opts : Options) :
    Except JSError WebpackMinimalSentryPlugin × List Effect :=
  match WebpackMinimalSentryPlugin.validateOptions opts with
  | .error e => (.error e, [])
  | .ok () =>
    let client : Sentry := ⟨opts.authToken⟩
    (.ok { client := client, options := opts }, [Effect.newClient client])

/-! ## Selecting the sources -/

/-- The callback of `.map` in `listSources`. -/
def WebpackMinimalSentryPlugin.listSources.select (assets : AssetMap) (name : String) :
    Except JSError (Option SourceFileInfos) :=
  if JS_REGEXP.test name || SOURCEMAP_REGEXP.test name then
    match assets.read name with
    | .ok asset => .ok (some { name := name, path := asset.existsAt })
    | .error e => .error e
  else
    .ok none

/-- The method `Array.prototype.map` with a callback that may throw. -/
def mapArray {α β : Type} (f : α → Except JSError β) : List α → Except JSError (List β)
  | [] => .ok []
  | x :: xs =>
    match f x with
    | .error e => .error e
    | .ok y =>
      match mapArray f xs with
      | .error e => .error e
      | .ok ys => .ok (y :: ys)

/-- The method `listSources(compilation)`; `.filter(Boolean)` drops the `null` entries. -/
def WebpackMinimalSentryPlugin.listSources (compilation : Compilation) :
    Except JSError (List SourceFileInfos) :=
  match mapArray (WebpackMinimalSentryPlugin.listSources.select compilation.assets)
      compilation.assets.keys with
  | .error e => .error e
  | .ok mapped => .ok (mapped.filterMap id)

/-! ## The Sentry service -/

/-- How an asynchronous operation stands: not settled yet, resolved, or rejected
with an error. -/
inductive Outcome where
  | pending
  | resolved
  | rejected (error : JSError)
  deriving DecidableEq, Repr

/-- The method `createRelease()`: one `releases.create` request; the promise settles the
way the service answers it (`response`). -/
def WebpackMinimalSentryPlugin.createRelease (self : WebpackMinimalSentryPlugin)
    (response : Except JSError Unit) : List ServiceCall × Except JSError Unit :=
  ([ServiceCall.releasesCreate self.options.organization self.options.project
      self.options.version], response)

/-- The method `uploadSource({ name, path })`: the `releases.createFile` request it sends.
The stream opened by `fs.createReadStream(path)` is identified by `path`. An
invocation runs up to the request without yielding, so the request is sent when
the function is called; its promise settles later. -/
def WebpackMinimalSentryPlugin.uploadSource (self : WebpackMinimalSentryPlugin)
    (source : SourceFileInfos) : ServiceCall :=
  let file := source.path
  let filename :=
    match self.options.filenameTransform with
    | some filenameTransform => filenameTransform source.name
    | none => source.name
  ServiceCall.releasesCreateFile self.options.organization self.options.project
    self.options.version filename file

/-! ## The promise pool -/

/-- The concurrency handed to the pool: a number or `Infinity`. -/
inductive Concurrency where
  | finite (n : Nat)
  | infinity
  deriving DecidableEq, Repr

/-- Modelled from the spec: the test `size < concurrency` by which the dispatcher of
es6-promise-pool keeps to its limit (spec 4.1: at most C units in flight). -/
def Concurrency.allows : Concurrency → Nat → Bool
  | .finite n, size => size < n
  | .infinity, _ => true

/-- The bound `min(N, C)` of the spec for a number of units `N` and a limit `C`. -/
def Concurrency.min : Concurrency → Nat → Nat
  | .finite n, units => Nat.min units n
  | .infinity, units => units

/-- Modelled from the spec: the dispatcher `PromisePool` of the package
es6-promise-pool, which `src/index.js` imports and whose code is not among the
sources (spec 4.1, 5). It holds the supply function with the state that function
closes over, the concurrency limit, the units in flight, and a record of what
was started, fulfilled and rejected. -/
structure PromisePool (σ υ : Type) where
  producer : σ → Option υ × σ
  concurrency : Concurrency
  supply : σ
  inFlight : List υ
  started : List υ
  fulfilled : List υ
  rejected : List (υ × JSError)
  exhausted : Bool

/-- Modelled from the spec: what can happen to a running dispatcher (spec 4.1):
a worker asks the supply for the next unit, or the unit at position `i` of those
in flight completes, successfully or not. -/
inductive PoolEvent where
  | claim
  | fulfil (i : Nat)
  | reject (i : Nat) (error : JSError)
  deriving DecidableEq, Repr

/-- Modelled from the spec: one step of the dispatcher (spec 4.1). A worker
claims only while fewer units than the limit are in flight and the supply has
not signalled exhaustion; a claimed unit is in flight until it completes. An
event that cannot happen in the current state leaves it as it is. The schedule
decides when workers claim, so each claiming policy (eagerly, or never again
after a failure) is a family of schedules. -/
def PromisePool.step {σ υ : Type} (pool : PromisePool σ υ) : PoolEvent → PromisePool σ υ
  | .claim =>
    if pool.exhausted then pool
    else if !pool.concurrency.allows pool.inFlight.length then pool
    else
      match pool.producer pool.supply with
      | (none, supply) => { pool with supply := supply, exhausted := true }
      | (some unit, supply) =>
        { pool with
          supply := supply
          inFlight := pool.inFlight ++ [unit]
          started := pool.started ++ [unit] }
  | .fulfil i =>
    match pool.inFlight.get? i with
    | none => pool
    | some unit =>
      { pool with
        inFlight := pool.inFlight.eraseIdx i
        fulfilled := pool.fulfilled ++ [unit] }
  | .reject i error =>
    match pool.inFlight.get? i with
    | none => pool
    | some unit =>
      { pool with
        inFlight := pool.inFlight.eraseIdx i
        rejected := pool.rejected ++ [(unit, error)] }

/-- Modelled from the spec: a run of the dispatcher of es6-promise-pool under a
schedule of events (spec 4.1). -/
def PromisePool.run {σ υ : Type} (pool : PromisePool σ υ) (schedule : List PoolEvent) :
    PromisePool σ υ :=
  schedule.foldl PromisePool.step pool

/-- Modelled from the spec: the promise returned by `pool.start()` of
es6-promise-pool (spec 4.1): it fails when a unit has failed, with that
failure, and resolves once the supply is exhausted and nothing is in flight. -/
def PromisePool.outcome {σ υ : Type} (pool : PromisePool σ υ) : Outcome :=
  match pool.rejected with
  | (_, error) :: _ => .rejected error
  | [] => if pool.exhausted && pool.inFlight.isEmpty then .resolved else .pending

/-- The limit computed by `this.options.uploadConcurrency || Infinity`. -/
def WebpackMinimalSentryPlugin.uploadSources.concurrency (self : WebpackMinimalSentryPlugin) :
    Concurrency :=
  match self.options.uploadConcurrency with
  | some n => if n != 0 then .finite n else .infinity
  | none => .infinity

/-- The supply function that `uploadSources` hands to the pool; the array
`sources` it pops from is its state. -/
def WebpackMinimalSentryPlugin.uploadSources.producer (self : WebpackMinimalSentryPlugin)
    (sources : List SourceFileInfos) : Option ServiceCall × List SourceFileInfos :=
  match pop sources with
  | (none, sources) => (none, sources)
  | (some source, sources) => (some (self.uploadSource source), sources)

/-- The method `uploadSources(sources)`: the pool it creates and starts. -/
def WebpackMinimalSentryPlugin.uploadSources (self : WebpackMinimalSentryPlugin)
    (sources : List SourceFileInfos) : PromisePool (List SourceFileInfos) ServiceCall :=
  { producer := WebpackMinimalSentryPlugin.uploadSources.producer self
    concurrency := WebpackMinimalSentryPlugin.uploadSources.concurrency self
    supply := sources
    inFlight := []
    started := []
    fulfilled := []
    rejected := []
    exhausted := false }

/-- The results of `count` successive calls of a supply function, and the state
they leave. -/
def callRepeatedly {σ υ : Type} (producer : σ → Option υ × σ) : Nat → σ → List (Option υ) × σ
  | 0, state => ([], state)
  | count + 1, state =>
    let first := producer state
    let others := callRepeatedly producer count first.2
    (first.1 :: others.1, others.2)

/-! ## The `afterEmit` hook -/

/-- A run of the `afterEmit` handler: the requests sent to the service, in
order, and how the promise returned to webpack stands. -/
structure EmitRun where
  calls : List ServiceCall
  outcome : Outcome
  deriving DecidableEq, Repr

/-- The `afterEmit` handler registered by `apply`. `response` is the answer of
the service to the release creation, `schedule` the course of the upload pool. -/
def WebpackMinimalSentryPlugin.afterEmit (self : WebpackMinimalSentryPlugin)
    (compilation : Compilation) (response : Except JSError Unit)
    (schedule : List PoolEvent) : EmitRun :=
  match WebpackMinimalSentryPlugin.listSources compilation with
  | .error e => { calls := [], outcome := .rejected e }
  | .ok sources =>
    match self.createRelease response with
    | (calls, .error e) => { calls := calls, outcome := .rejected e }
    | (calls, .ok ()) =>
      let pool := (self.uploadSources sources).run schedule
      { calls := calls ++ pool.started, outcome := pool.outcome }

/-! ## The `done` hook -/

/-- The files on disk, and those among them that may not be removed. -/
structure Disk where
  files : List String
  locked : List String
  deriving DecidableEq, Repr

/-- Modelled from the spec: `fs.unlinkSync` of Node.js, the synchronous delete
of the file system (spec 6). It removes the file at `path` and nothing else, and
throws when there is no such file or it may not be removed (spec 4.4). -/
def unlinkSync (disk : Disk) (path : String) : Except JSError Disk :=
  if path ∈ disk.files then
    if path ∈ disk.locked then
      .error ⟨"EPERM: operation not permitted, unlink"⟩
    else
      .ok { disk with files := disk.files.filter (fun file => file != path) }
  else
    .error ⟨"ENOENT: no such file or directory, unlink"⟩

/-- A run of the `done` handler: the disk it leaves, the paths `fs.unlinkSync`
was called with, in order, and how the promise returned to webpack stands. -/
structure DoneRun where
  disk : Disk
  unlinkCalls : List String
  outcome : Outcome
  deriving DecidableEq, Repr

/-- The `.forEach` of `deleteSourcemaps`: an exception thrown by the callback
ends the iteration. -/
def WebpackMinimalSentryPlugin.deleteSourcemaps.forEach (assets : AssetMap) :
    List String → Disk → DoneRun
  | [], disk => { disk := disk, unlinkCalls := [], outcome := .resolved }
  | name :: names, disk =>
    match assets.read name with
    | .error e => { disk := disk, unlinkCalls := [], outcome := .rejected e }
    | .ok asset =>
      match unlinkSync disk asset.existsAt with
      | .error e => { disk := disk, unlinkCalls := [asset.existsAt], outcome := .rejected e }
      | .ok removed =>
        let run := WebpackMinimalSentryPlugin.deleteSourcemaps.forEach assets names removed
        { run with unlinkCalls := asset.existsAt :: run.unlinkCalls }

/-- The method `deleteSourcemaps(stats)`: the keys that match the sourcemap pattern,
then the `.forEach` over them. -/
def WebpackMinimalSentryPlugin.deleteSourcemaps (stats : Stats) (disk : Disk) : DoneRun :=
  WebpackMinimalSentryPlugin.deleteSourcemaps.forEach stats.compilation.assets
    (stats.compilation.assets.keys.filter (fun name => SOURCEMAP_REGEXP.test name)) disk

/-- The `done` handler registered by `apply`. -/
def WebpackMinimalSentryPlugin.done (self : WebpackMinimalSentryPlugin) (stats : Stats)
    (disk : Disk) : DoneRun :=
  if self.options.deleteSourcemaps == some true then
    WebpackMinimalSentryPlugin.deleteSourcemaps stats disk
  else
    { disk := disk, unlinkCalls := [], outcome := .resolved }

/-! ## The invariant of the upload pool -/

/-- What holds of the pool of `uploadSources` at every moment of every run. -/
structure PoolInvariant (plugin : WebpackMinimalSentryPlugin) (sources : List SourceFileInfos)
    (pool : PromisePool (List SourceFileInfos) ServiceCall) : Prop where
  producer_eq : pool.producer = WebpackMinimalSentryPlugin.uploadSources.producer plugin
  concurrency_eq :
    pool.concurrency = WebpackMinimalSentryPlugin.uploadSources.concurrency plugin
  claimed : ∃ claimed : List SourceFileInfos,
    pool.supply ++ claimed.reverse = sources ∧ pool.started = claimed.map plugin.uploadSource
  settled : (pool.fulfilled ++ pool.rejected.map Prod.fst ++ pool.inFlight).Perm pool.started
  exhausted_supply : pool.exhausted = true → pool.supply = []
  bound : ∀ n, pool.concurrency = .finite n → pool.inFlight.length ≤ n

/-! ## Lemmas: truthiness and regular expressions -/

theorem truthy_eq_false_iff (v : Option String) :
    truthy v = false ↔ (v = none ∨ v = some "") := by
  cases v with
  | none => simp [truthy]
  | some s => simp [truthy]

theorem matchHere_iff (pattern input : List Char) :
    RegExp.matchHere pattern input = true ↔ input = pattern := by
  induction pattern generalizing input with
  | nil => cases input <;> simp [RegExp.matchHere]
  | cons c cs ih =>
    cases input with
    | nil => simp [RegExp.matchHere]
    | cons d rest =>
      simp only [RegExp.matchHere, Bool.and_eq_true, beq_iff_eq, ih, List.cons.injEq]
      constructor
      · rintro ⟨h1, h2⟩; exact ⟨h1.symm, h2⟩
      · rintro ⟨h1, h2⟩; exact ⟨h1.symm, h2⟩

theorem search_iff_suffix (pattern input : List Char) :
    RegExp.search pattern input = true ↔ pattern <:+ input := by
  induction input with
  | nil =>
    simp only [RegExp.search, matchHere_iff, List.suffix_nil]
    exact eq_comm
  | cons d rest ih =>
    simp only [RegExp.search, Bool.or_eq_true, matchHere_iff, ih, List.suffix_cons_iff]
    constructor
    · rintro (h | h)
      · exact Or.inl h.symm
      · exact Or.inr h
    · rintro (h | h)
      · exact Or.inl h.symm
      · exact Or.inr h

theorem test_iff_suffix (r : RegExp) (name : String) :
    r.test name = true ↔ r.literal <:+ name.data :=
  search_iff_suffix r.literal name.data

/-! ## Lemmas: the asset dictionary -/

theorem lookup_of_mem_of_nodup (assets : AssetMap) (hkeys : assets.keys.Nodup)
    (name : String) (asset : Asset) (hmem : (name, asset) ∈ assets) :
    assets.lookup name = some asset := by
  induction assets with
  | nil => simp at hmem
  | cons entry rest ih =>
    obtain ⟨key, value⟩ := entry
    simp only [AssetMap.keys, List.map_cons, List.nodup_cons, List.mem_map, Prod.exists,
      exists_and_right, exists_eq_right, not_exists] at hkeys
    rcases List.mem_cons.mp hmem with heq | hrest
    · cases heq
      simp [List.lookup]
    · have hne : name ≠ key := by
        intro h
        subst h
        exact hkeys.1 asset hrest
      have hbeq : (name == key) = false := by simpa using hne
      simp only [List.lookup, hbeq]
      exact ih hkeys.2 hrest

/-- The entry that the callback of `listSources` computes for a dictionary entry. -/
theorem select_of_lookup (assets : AssetMap) (name : String) (asset : Asset)
    (h : assets.lookup name = some asset) :
    WebpackMinimalSentryPlugin.listSources.select assets name =
      .ok (if JS_REGEXP.test name || SOURCEMAP_REGEXP.test name
        then some { name := name, path := asset.existsAt } else none) := by
  unfold WebpackMinimalSentryPlugin.listSources.select AssetMap.read
  rw [h]
  split <;> rfl

theorem mapArray_select (assets : AssetMap) (entries : List (String × Asset))
    (h : ∀ entry ∈ entries, assets.lookup entry.1 = some entry.2) :
    mapArray (WebpackMinimalSentryPlugin.listSources.select assets) (entries.map Prod.fst) =
      .ok (entries.map (fun entry =>
        if JS_REGEXP.test entry.1 || SOURCEMAP_REGEXP.test entry.1
        then some { name := entry.1, path := entry.2.existsAt } else none)) := by
  induction entries with
  | nil => rfl
  | cons entry rest ih =>
    have hhead := select_of_lookup assets entry.1 entry.2 (h entry (List.mem_cons_self _ _))
    have htail := ih (fun e he => h e (List.mem_cons_of_mem _ he))
    simp only [List.map_cons, mapArray, hhead, htail]

theorem filterMap_ite_eq_map_filter {α β : Type} (p : α → Bool) (g : α → β) (l : List α) :
    (l.map (fun x => if p x then some (g x) else none)).filterMap id =
      (l.filter p).map g := by
  induction l with
  | nil => rfl
  | cons x rest ih =>
    cases hp : p x
    · simpa [List.filterMap_cons, List.filter_cons, hp] using ih
    · simpa [List.filterMap_cons, List.filter_cons, hp] using ih

theorem test_eq_decide_suffix (entry : String × Asset) :
    (JS_REGEXP.test entry.1 || SOURCEMAP_REGEXP.test entry.1) =
      (decide (".js".data <:+ entry.1.data) || decide (".map".data <:+ entry.1.data)) := by
  have hjs : JS_REGEXP.test entry.1 = decide (".js".data <:+ entry.1.data) := by
    rw [Bool.eq_iff_iff, test_iff_suffix, decide_eq_true_iff]
    exact Iff.rfl
  have hmap : SOURCEMAP_REGEXP.test entry.1 = decide (".map".data <:+ entry.1.data) := by
    rw [Bool.eq_iff_iff, test_iff_suffix, decide_eq_true_iff]
    exact Iff.rfl
  rw [hjs, hmap]

theorem filterMap_select_eq (entries : List (String × Asset)) :
    (entries.map (fun entry =>
        if JS_REGEXP.test entry.1 || SOURCEMAP_REGEXP.test entry.1
        then some ({ name := entry.1, path := entry.2.existsAt } : SourceFileInfos)
        else none)).filterMap id =
      (entries.filter (fun entry =>
        decide (".js".data <:+ entry.1.data) || decide (".map".data <:+ entry.1.data))).map
        (fun entry => { name := entry.1, path := entry.2.existsAt }) := by
  have hfun : (fun entry : String × Asset =>
      decide (".js".data <:+ entry.1.data) || decide (".map".data <:+ entry.1.data)) =
      (fun entry => JS_REGEXP.test entry.1 || SOURCEMAP_REGEXP.test entry.1) :=
    funext (fun entry => (test_eq_decide_suffix entry).symm)
  rw [hfun]
  exact filterMap_ite_eq_map_filter
    (fun entry : String × Asset => JS_REGEXP.test entry.1 || SOURCEMAP_REGEXP.test entry.1)
    (fun entry => ({ name := entry.1, path := entry.2.existsAt } : SourceFileInfos)) entries

theorem listSources_eq (compilation : Compilation) (hkeys : compilation.assets.keys.Nodup) :
    WebpackMinimalSentryPlugin.listSources compilation =
      .ok ((compilation.assets.filter (fun entry =>
        decide (".js".data <:+ entry.1.data) || decide (".map".data <:+ entry.1.data))).map
        (fun entry => { name := entry.1, path := entry.2.existsAt })) := by
  unfold WebpackMinimalSentryPlugin.listSources AssetMap.keys
  rw [mapArray_select compilation.assets compilation.assets
    (fun entry he => lookup_of_mem_of_nodup compilation.assets hkeys entry.1 entry.2 he)]
  simp only [filterMap_select_eq]

/-- The selection never throws: every name it looks up is a key of the
dictionary. -/
theorem listSources_ok (compilation : Compilation) :
    ∃ sources, WebpackMinimalSentryPlugin.listSources compilation = .ok sources := by
  have hsel : ∀ (assets : AssetMap) (names : List String),
      (∀ name ∈ names, ∃ asset, assets.lookup name = some asset) →
      ∃ mapped, mapArray (WebpackMinimalSentryPlugin.listSources.select assets) names =
        .ok mapped := by
    intro assets names
    induction names with
    | nil => intro _; exact ⟨[], rfl⟩
    | cons name rest ih =>
      intro h
      obtain ⟨asset, ha⟩ := h name (List.mem_cons_self _ _)
      obtain ⟨mapped, hm⟩ := ih (fun n hn => h n (List.mem_cons_of_mem _ hn))
      refine ⟨(if JS_REGEXP.test name || SOURCEMAP_REGEXP.test name
        then some { name := name, path := asset.existsAt } else none) :: mapped, ?_⟩
      simp only [mapArray, select_of_lookup assets name asset ha, hm]
  have hkey : ∀ (assets : AssetMap), ∀ name ∈ assets.keys,
      ∃ asset, assets.lookup name = some asset := by
    intro assets
    induction assets with
    | nil => intro name hn; simp [AssetMap.keys] at hn
    | cons entry rest ih =>
      intro name hn
      obtain ⟨key, value⟩ := entry
      by_cases hk : name = key
      · subst hk
        exact ⟨value, by simp [List.lookup]⟩
      · have hbeq : (name == key) = false := by simpa using hk
        have hrest : name ∈ AssetMap.keys rest := by
          simp only [AssetMap.keys, List.map_cons, List.mem_cons] at hn
          rcases hn with h | h
          · exact absurd h hk
          · exact h
        obtain ⟨asset, ha⟩ := ih name hrest
        exact ⟨asset, by simp only [List.lookup, hbeq]; exact ha⟩
  obtain ⟨mapped, hm⟩ := hsel compilation.assets compilation.assets.keys (hkey compilation.assets)
  exact ⟨mapped.filterMap id, by unfold WebpackMinimalSentryPlugin.listSources; rw [hm]⟩

/-! ## Construction (C1) -/

/-- C1. Constructing the plugin throws exactly when one of `authToken`,
`organization`, `project`, `version` is missing or empty. The error thrown is
one of the four "Invalid configuration" errors, and then nothing has been done:
no request was sent and no client was created. When all four are non-empty the
constructor returns an instance holding the options as given and the client
created from the token, and it sends no request. -/
theorem constructor_fails_iff_required_option_missing (opts : Options) :
    ((∃ e, (WebpackMinimalSentryPlugin.new opts).1 = .error e) ↔
      ((opts.authToken = none ∨ opts.authToken = some "") ∨
        (opts.organization = none ∨ opts.organization = some "") ∨
        (opts.project = none ∨ opts.project = some "") ∨
        (opts.version = none ∨ opts.version = some ""))) ∧
    (∀ e, (WebpackMinimalSentryPlugin.new opts).1 = .error e →
      e ∈ [(⟨"Invalid configuration, <authToken> was not provided"⟩ : JSError),
          ⟨"Invalid configuration, <organization> was not provided"⟩,
          ⟨"Invalid configuration, <project> was not provided"⟩,
          ⟨"Invalid configuration, <version> was not provided"⟩] ∧
        (WebpackMinimalSentryPlugin.new opts).2 = []) ∧
    (¬ ((opts.authToken = none ∨ opts.authToken = some "") ∨
        (opts.organization = none ∨ opts.organization = some "") ∨
        (opts.project = none ∨ opts.project = some "") ∨
        (opts.version = none ∨ opts.version = some "")) →
      WebpackMinimalSentryPlugin.new opts =
        (.ok { client := ⟨opts.authToken⟩, options := opts },
          [Effect.newClient ⟨opts.authToken⟩])) := by
  simp only [← truthy_eq_false_iff]
  unfold WebpackMinimalSentryPlugin.new WebpackMinimalSentryPlugin.validateOptions
  cases h1 : truthy opts.authToken <;> cases h2 : truthy opts.organization <;>
    cases h3 : truthy opts.project <;> cases h4 : truthy opts.version <;> simp

/-- C1, at a concrete input: a configuration without `project` is refused, a
complete one is accepted. -/
theorem constructor_fails_iff_required_option_missing_witness :
    (∃ e, (WebpackMinimalSentryPlugin.new
        ⟨some "token", some "org", none, some "1.0.0", none, none, none⟩).1 = .error e) ∧
    (WebpackMinimalSentryPlugin.new
        ⟨some "token", some "org", none, some "1.0.0", none, none, none⟩).2 = [] ∧
    WebpackMinimalSentryPlugin.new
        ⟨some "token", some "org", some "web", some "1.0.0", none, none, none⟩ =
      (.ok { client := ⟨some "token"⟩,
             options := ⟨some "token", some "org", some "web", some "1.0.0", none, none, none⟩ },
        [Effect.newClient ⟨some "token"⟩]) := by
  have hbad := constructor_fails_iff_required_option_missing
    ⟨some "token", some "org", none, some "1.0.0", none, none, none⟩
  have hgood := constructor_fails_iff_required_option_missing
    ⟨some "token", some "org", some "web", some "1.0.0", none, none, none⟩
  have hfail := hbad.1.mpr (Or.inr (Or.inr (Or.inl (Or.inl rfl))))
  refine ⟨hfail, ?_, hgood.2.2 (by decide)⟩
  obtain ⟨e, he⟩ := hfail
  exact (hbad.2.1 e he).2

/-! ## Selecting the sources (C2) -/

/-- C2. For an asset dictionary (its keys are distinct, as the keys of an object
are), `listSources` returns the descriptors `(name, existsAt)` of exactly the
entries whose name ends in ".js" or in ".map", in the order of the keys, and no
descriptor and no name occurs twice in the result. For the dictionary
`{"app.js": pathA, "app.js.map": pathB, "vendor.css": pathC}` the result is
`[(app.js, pathA), (app.js.map, pathB)]`. -/
theorem listSources_selects_js_and_map (compilation : Compilation)
    (hkeys : compilation.assets.keys.Nodup) :
    (∃ sources, WebpackMinimalSentryPlugin.listSources compilation = .ok sources ∧
      sources = (compilation.assets.filter (fun entry =>
          decide (".js".data <:+ entry.1.data) || decide (".map".data <:+ entry.1.data))).map
          (fun entry => { name := entry.1, path := entry.2.existsAt }) ∧
      sources.Nodup ∧ (sources.map (fun source => source.name)).Nodup) ∧
    (∀ pathA pathB pathC : String,
      WebpackMinimalSentryPlugin.listSources
          ⟨[("app.js", ⟨pathA⟩), ("app.js.map", ⟨pathB⟩), ("vendor.css", ⟨pathC⟩)]⟩ =
        .ok [⟨"app.js", pathA⟩, ⟨"app.js.map", pathB⟩]) := by
  refine ⟨⟨_, listSources_eq compilation hkeys, rfl, ?_⟩, ?_⟩
  · have hnames : (List.map (fun source : SourceFileInfos => source.name)
        ((compilation.assets.filter (fun entry =>
          decide (".js".data <:+ entry.1.data) || decide (".map".data <:+ entry.1.data))).map
          (fun entry => { name := entry.1, path := entry.2.existsAt }))).Nodup := by
      rw [List.map_map]
      have hfst : ((fun source : SourceFileInfos => source.name) ∘
          (fun entry : String × Asset =>
            ({ name := entry.1, path := entry.2.existsAt } : SourceFileInfos))) = Prod.fst := rfl
      rw [hfst]
      exact List.Nodup.sublist ((List.filter_sublist _).map Prod.fst) hkeys
    exact ⟨List.Nodup.of_map _ hnames, hnames⟩
  · intro pathA pathB pathC
    have hnodup : (["app.js", "app.js.map", "vendor.css"] : List String).Nodup := by decide
    rw [listSources_eq ⟨[("app.js", ⟨pathA⟩), ("app.js.map", ⟨pathB⟩), ("vendor.css", ⟨pathC⟩)]⟩
      hnodup]
    rfl

/-- C2, at a concrete input: a stylesheet and names that merely contain ".js" are
dropped, the order of the keys is kept. -/
theorem listSources_selects_js_and_map_witness :
    WebpackMinimalSentryPlugin.listSources
        ⟨[("main.js.map", ⟨"/dist/main.js.map"⟩), ("style.css", ⟨"/dist/style.css"⟩),
          ("main.js", ⟨"/dist/main.js"⟩), ("x.json", ⟨"/dist/x.json"⟩)]⟩ =
      .ok [⟨"main.js.map", "/dist/main.js.map"⟩, ⟨"main.js", "/dist/main.js"⟩] := by
  obtain ⟨⟨sources, hrun, hsources, _⟩, _⟩ := listSources_selects_js_and_map
    ⟨[("main.js.map", ⟨"/dist/main.js.map"⟩), ("style.css", ⟨"/dist/style.css"⟩),
      ("main.js", ⟨"/dist/main.js"⟩), ("x.json", ⟨"/dist/x.json"⟩)]⟩ (by decide)
  rw [hrun, hsources]
  rfl

/-! ## Lemmas: arrays -/

theorem pop_nil {α : Type} : pop ([] : List α) = (none, []) := rfl

theorem pop_concat {α : Type} (xs : List α) (x : α) : pop (xs ++ [x]) = (some x, xs) := by
  simp [pop]

theorem perm_cons_eraseIdx {α : Type} (l : List α) (i : Nat) (x : α)
    (h : l.get? i = some x) : l.Perm (x :: l.eraseIdx i) := by
  induction l generalizing i with
  | nil => simp at h
  | cons y ys ih =>
    cases i with
    | zero =>
      simp only [List.get?_cons_zero, Option.some.injEq] at h
      subst h
      exact List.Perm.refl _
    | succ j =>
      simp only [List.get?_cons_succ] at h
      exact ((ih j h).cons y).trans (List.Perm.swap x y _)

/-! ## Lemmas: the supply function of `uploadSources` -/

theorem producer_nil (self : WebpackMinimalSentryPlugin) :
    WebpackMinimalSentryPlugin.uploadSources.producer self [] = (none, []) := rfl

theorem producer_concat (self : WebpackMinimalSentryPlugin) (sources : List SourceFileInfos)
    (source : SourceFileInfos) :
    WebpackMinimalSentryPlugin.uploadSources.producer self (sources ++ [source]) =
      (some (self.uploadSource source), sources) := by
  simp [WebpackMinimalSentryPlugin.uploadSources.producer, pop_concat]

theorem callRepeatedly_nil (self : WebpackMinimalSentryPlugin) (count : Nat) :
    callRepeatedly (WebpackMinimalSentryPlugin.uploadSources.producer self) count [] =
      (List.replicate count none, []) := by
  induction count with
  | zero => rfl
  | succ k ih => simp [callRepeatedly, producer_nil, ih, List.replicate_succ]

theorem callRepeatedly_reverse (self : WebpackMinimalSentryPlugin)
    (claimed : List SourceFileInfos) (extra : Nat) :
    callRepeatedly (WebpackMinimalSentryPlugin.uploadSources.producer self)
        (claimed.length + extra) claimed.reverse =
      (claimed.map (fun source => some (self.uploadSource source)) ++
        List.replicate extra none, []) := by
  induction claimed with
  | nil => simpa using callRepeatedly_nil self extra
  | cons source rest ih =>
    have hcount : (source :: rest).length + extra = (rest.length + extra) + 1 := by
      simp only [List.length_cons]; omega
    rw [hcount, List.reverse_cons]
    simp only [callRepeatedly, producer_concat, ih, List.map_cons, List.cons_append]

/-! ## Lemmas: the invariant of the upload pool -/

theorem poolInvariant_start (self : WebpackMinimalSentryPlugin)
    (sources : List SourceFileInfos) :
    PoolInvariant self sources (self.uploadSources sources) where
  producer_eq := rfl
  concurrency_eq := rfl
  claimed := ⟨[], by simp [WebpackMinimalSentryPlugin.uploadSources]⟩
  settled := by simp [WebpackMinimalSentryPlugin.uploadSources]
  exhausted_supply := by simp [WebpackMinimalSentryPlugin.uploadSources]
  bound := by simp [WebpackMinimalSentryPlugin.uploadSources]

theorem step_claim_exhausted {σ υ : Type} (pool : PromisePool σ υ)
    (h : pool.exhausted = true) : pool.step .claim = pool := by
  simp [PromisePool.step, h]

theorem step_claim_full {σ υ : Type} (pool : PromisePool σ υ)
    (h : pool.concurrency.allows pool.inFlight.length = false) : pool.step .claim = pool := by
  simp [PromisePool.step, h]

theorem step_claim_none {σ υ : Type} (pool : PromisePool σ υ) (supply : σ)
    (hex : pool.exhausted = false)
    (hallow : pool.concurrency.allows pool.inFlight.length = true)
    (hprod : pool.producer pool.supply = (none, supply)) :
    pool.step .claim = { pool with supply := supply, exhausted := true } := by
  simp [PromisePool.step, hex, hallow, hprod]

theorem step_claim_some {σ υ : Type} (pool : PromisePool σ υ) (unit : υ) (supply : σ)
    (hex : pool.exhausted = false)
    (hallow : pool.concurrency.allows pool.inFlight.length = true)
    (hprod : pool.producer pool.supply = (some unit, supply)) :
    pool.step .claim =
      { pool with
        supply := supply
        inFlight := pool.inFlight ++ [unit]
        started := pool.started ++ [unit] } := by
  simp [PromisePool.step, hex, hallow, hprod]

theorem step_fulfil_none {σ υ : Type} (pool : PromisePool σ υ) (i : Nat)
    (h : pool.inFlight.get? i = none) : pool.step (.fulfil i) = pool := by
  simp only [PromisePool.step, h]

theorem step_fulfil_some {σ υ : Type} (pool : PromisePool σ υ) (i : Nat) (unit : υ)
    (h : pool.inFlight.get? i = some unit) :
    pool.step (.fulfil i) =
      { pool with
        inFlight := pool.inFlight.eraseIdx i
        fulfilled := pool.fulfilled ++ [unit] } := by
  simp only [PromisePool.step, h]

theorem step_reject_none {σ υ : Type} (pool : PromisePool σ υ) (i : Nat) (error : JSError)
    (h : pool.inFlight.get? i = none) : pool.step (.reject i error) = pool := by
  simp only [PromisePool.step, h]

theorem step_reject_some {σ υ : Type} (pool : PromisePool σ υ) (i : Nat) (error : JSError)
    (unit : υ) (h : pool.inFlight.get? i = some unit) :
    pool.step (.reject i error) =
      { pool with
        inFlight := pool.inFlight.eraseIdx i
        rejected := pool.rejected ++ [(unit, error)] } := by
  simp only [PromisePool.step, h]

theorem poolInvariant_step (self : WebpackMinimalSentryPlugin)
    (sources : List SourceFileInfos) (pool : PromisePool (List SourceFileInfos) ServiceCall)
    (event : PoolEvent) (inv : PoolInvariant self sources pool) :
    PoolInvariant self sources (pool.step event) := by
  obtain ⟨hprod, hconc, ⟨claimed, hsupply, hstarted⟩, hsettled, hexh, hbound⟩ := inv
  cases event with
  | claim =>
    cases hex : pool.exhausted with
    | true =>
      rw [step_claim_exhausted pool hex]
      exact ⟨hprod, hconc, ⟨claimed, hsupply, hstarted⟩, hsettled, hexh, hbound⟩
    | false =>
      cases hallow : pool.concurrency.allows pool.inFlight.length with
      | false =>
        rw [step_claim_full pool hallow]
        exact ⟨hprod, hconc, ⟨claimed, hsupply, hstarted⟩, hsettled, hexh, hbound⟩
      | true =>
        rcases List.eq_nil_or_concat pool.supply with hnil | ⟨rest, source, hcat⟩
        · have hp : pool.producer pool.supply = (none, []) := by
            rw [hprod, hnil, producer_nil]
          rw [step_claim_none pool [] hex hallow hp]
          refine ⟨hprod, hconc, ⟨claimed, ?_, hstarted⟩, hsettled, fun _ => rfl, hbound⟩
          show [] ++ claimed.reverse = sources
          rw [← hsupply, hnil]
        · rw [List.concat_eq_append] at hcat
          have hp : pool.producer pool.supply = (some (self.uploadSource source), rest) := by
            rw [hprod, hcat, producer_concat]
          rw [step_claim_some pool _ rest hex hallow hp]
          refine ⟨hprod, hconc, ⟨claimed ++ [source], ?_, ?_⟩, ?_, ?_, ?_⟩
          · show rest ++ (claimed ++ [source]).reverse = sources
            rw [← hsupply, hcat]
            simp
          · show pool.started ++ [self.uploadSource source] =
              (claimed ++ [source]).map self.uploadSource
            simp [hstarted]
          · show (pool.fulfilled ++ pool.rejected.map Prod.fst ++
              (pool.inFlight ++ [self.uploadSource source])).Perm
              (pool.started ++ [self.uploadSource source])
            rw [← List.append_assoc]
            exact hsettled.append_right _
          · intro h
            have h2 : pool.exhausted = true := h
            rw [hex] at h2
            exact absurd h2 (by decide)
          · intro n hn
            show (pool.inFlight ++ [self.uploadSource source]).length ≤ n
            have hn2 : pool.concurrency = .finite n := hn
            have hlt : pool.inFlight.length < n := by
              rw [hn2] at hallow
              simpa [Concurrency.allows] using hallow
            simp only [List.length_append, List.length_singleton]
            omega
  | fulfil i =>
    cases hget : pool.inFlight.get? i with
    | none =>
      rw [step_fulfil_none pool i hget]
      exact ⟨hprod, hconc, ⟨claimed, hsupply, hstarted⟩, hsettled, hexh, hbound⟩
    | some unit =>
      rw [step_fulfil_some pool i unit hget]
      have hperm := perm_cons_eraseIdx pool.inFlight i unit hget
      refine ⟨hprod, hconc, ⟨claimed, hsupply, hstarted⟩, ?_, hexh, ?_⟩
      · show ((pool.fulfilled ++ [unit]) ++ pool.rejected.map Prod.fst ++
          pool.inFlight.eraseIdx i).Perm pool.started
        refine List.Perm.trans ?_ hsettled
        have h1 : (pool.fulfilled ++ pool.rejected.map Prod.fst ++ pool.inFlight).Perm
            (pool.fulfilled ++ pool.rejected.map Prod.fst ++
              (unit :: pool.inFlight.eraseIdx i)) := hperm.append_left _
        refine List.Perm.trans ?_ h1.symm
        simp only [List.append_assoc, List.singleton_append]
        refine List.Perm.append_left _ ?_
        exact (List.perm_middle).symm
      · intro n hn
        show (pool.inFlight.eraseIdx i).length ≤ n
        have h1 := hperm.length_eq
        simp only [List.length_cons] at h1
        have h2 := hbound n hn
        omega
  | reject i error =>
    cases hget : pool.inFlight.get? i with
    | none =>
      rw [step_reject_none pool i error hget]
      exact ⟨hprod, hconc, ⟨claimed, hsupply, hstarted⟩, hsettled, hexh, hbound⟩
    | some unit =>
      rw [step_reject_some pool i error unit hget]
      have hperm := perm_cons_eraseIdx pool.inFlight i unit hget
      refine ⟨hprod, hconc, ⟨claimed, hsupply, hstarted⟩, ?_, hexh, ?_⟩
      · show (pool.fulfilled ++ (pool.rejected ++ [(unit, error)]).map Prod.fst ++
          pool.inFlight.eraseIdx i).Perm pool.started
        refine List.Perm.trans ?_ hsettled
        have h1 : (pool.fulfilled ++ pool.rejected.map Prod.fst ++ pool.inFlight).Perm
            (pool.fulfilled ++ pool.rejected.map Prod.fst ++
              (unit :: pool.inFlight.eraseIdx i)) := hperm.append_left _
        refine List.Perm.trans ?_ h1.symm
        simp only [List.map_append, List.map_cons, List.map_nil, List.append_assoc,
          List.singleton_append]
        exact List.Perm.refl _
      · intro n hn
        show (pool.inFlight.eraseIdx i).length ≤ n
        have h1 := hperm.length_eq
        simp only [List.length_cons] at h1
        have h2 := hbound n hn
        omega

theorem poolInvariant_run (self : WebpackMinimalSentryPlugin)
    (sources : List SourceFileInfos) (schedule : List PoolEvent) :
    PoolInvariant self sources ((self.uploadSources sources).run schedule) := by
  have hgen : ∀ (schedule : List PoolEvent)
      (pool : PromisePool (List SourceFileInfos) ServiceCall),
      PoolInvariant self sources pool → PoolInvariant self sources (pool.run schedule) := by
    intro schedule
    induction schedule with
    | nil => intro pool inv; exact inv
    | cons event rest ih =>
      intro pool inv
      exact ih (pool.step event) (poolInvariant_step self sources pool event inv)
  exact hgen schedule _ (poolInvariant_start self sources)

theorem started_are_uploads (self : WebpackMinimalSentryPlugin)
    (sources : List SourceFileInfos) (schedule : List PoolEvent) :
    ∀ call ∈ ((self.uploadSources sources).run schedule).started,
      ∃ name file, call = ServiceCall.releasesCreateFile self.options.organization
        self.options.project self.options.version name file := by
  obtain ⟨claimed, _, hstarted⟩ := (poolInvariant_run self sources schedule).claimed
  intro call hcall
  rw [hstarted, List.mem_map] at hcall
  obtain ⟨source, _, hsource⟩ := hcall
  exact ⟨_, _, hsource.symm⟩

theorem outcome_resolved_iff {σ υ : Type} (pool : PromisePool σ υ) :
    pool.outcome = .resolved ↔
      pool.rejected = [] ∧ pool.exhausted = true ∧ pool.inFlight = [] := by
  unfold PromisePool.outcome
  cases hr : pool.rejected with
  | cons head tail => obtain ⟨unit, error⟩ := head; simp
  | nil =>
    cases hex : pool.exhausted <;> cases hfl : pool.inFlight <;> simp

/-! ## Release creation comes first (C3, C6) -/

/-- C3. In every run of the `afterEmit` handler, whatever the service answers
and however the uploads are scheduled, the requests sent to the service are one
`releases.create` request for the configured organization, project and version,
followed only by `releases.createFile` requests for that release. -/
theorem afterEmit_creates_release_once_before_uploads (self : WebpackMinimalSentryPlugin)
    (compilation : Compilation) (response : Except JSError Unit)
    (schedule : List PoolEvent) :
    ∃ uploads : List ServiceCall,
      (self.afterEmit compilation response schedule).calls =
        ServiceCall.releasesCreate self.options.organization self.options.project
          self.options.version :: uploads ∧
      ∀ call ∈ uploads, ∃ name file,
        call = ServiceCall.releasesCreateFile self.options.organization self.options.project
          self.options.version name file := by
  obtain ⟨sources, hsources⟩ := listSources_ok compilation
  unfold WebpackMinimalSentryPlugin.afterEmit
  rw [hsources]
  cases response with
  | error e =>
    exact ⟨[], rfl, by simp⟩
  | ok u =>
    exact ⟨((self.uploadSources sources).run schedule).started, rfl,
      started_are_uploads self sources schedule⟩

/-- C6. When the service rejects the release creation with an error, the
`afterEmit` handler is rejected with that very error; the one `releases.create`
request is all that was sent: no second attempt and no `releases.createFile`
request, however the pool would have been scheduled. -/
theorem afterEmit_release_failure_aborts (self : WebpackMinimalSentryPlugin)
    (compilation : Compilation) (error : JSError) (schedule : List PoolEvent) :
    self.afterEmit compilation (.error error) schedule =
      { calls := [ServiceCall.releasesCreate self.options.organization self.options.project
          self.options.version],
        outcome := .rejected error } := by
  obtain ⟨sources, hsources⟩ := listSources_ok compilation
  unfold WebpackMinimalSentryPlugin.afterEmit
  rw [hsources]
  rfl

/-! ## The upload pool (C4, C5, C10) -/

/-- C4. In every run of the pool that `uploadSources` starts on `N` sources with
limit `C`, at every moment at most `min(N, C)` uploads are in flight. With
`uploadConcurrency` 1 and three sources at most one upload is in flight at any
moment. -/
theorem uploadSources_in_flight_bounded (self : WebpackMinimalSentryPlugin)
    (sources : List SourceFileInfos) (schedule : List PoolEvent) :
    ((self.uploadSources sources).run schedule).inFlight.length ≤
        (self.uploadSources sources).concurrency.min sources.length ∧
    (self.options.uploadConcurrency = some 1 → sources.length = 3 →
      ((self.uploadSources sources).run schedule).inFlight.length ≤ 1) := by
  have inv := poolInvariant_run self sources schedule
  have hlen : ((self.uploadSources sources).run schedule).inFlight.length ≤ sources.length := by
    obtain ⟨claimed, hsupply, hstarted⟩ := inv.claimed
    have h1 := inv.settled.length_eq
    rw [hstarted] at h1
    have h2 : ((self.uploadSources sources).run schedule).supply.length + claimed.length =
        sources.length := by
      have h3 := congrArg List.length hsupply
      simpa using h3
    simp only [List.length_append, List.length_map] at h1
    omega
  have hconc : ((self.uploadSources sources).run schedule).concurrency =
      (self.uploadSources sources).concurrency := inv.concurrency_eq
  have hmain : ((self.uploadSources sources).run schedule).inFlight.length ≤
      (self.uploadSources sources).concurrency.min sources.length := by
    cases hc : (self.uploadSources sources).concurrency with
    | infinity => exact hlen
    | finite n =>
      have hb := inv.bound n (hconc.trans hc)
      exact Nat.le_min.mpr ⟨hlen, hb⟩
  refine ⟨hmain, ?_⟩
  intro hone hthree
  have hc : (self.uploadSources sources).concurrency = .finite 1 := by
    show WebpackMinimalSentryPlugin.uploadSources.concurrency self = .finite 1
    unfold WebpackMinimalSentryPlugin.uploadSources.concurrency
    rw [hone]
    rfl
  exact inv.bound 1 (hconc.trans hc)

/-- C4, at a concrete input: with `uploadConcurrency` 2 and three sources a
third claim is refused while two uploads are in flight, and with
`uploadConcurrency` 1 a second one is. -/
theorem uploadSources_in_flight_bounded_witness :
    ((WebpackMinimalSentryPlugin.uploadSources
        ⟨⟨some "t"⟩, ⟨some "t", some "org", some "web", some "1.0.0", none, none, some 2⟩⟩
        [⟨"a.js", "/a.js"⟩, ⟨"a.js.map", "/a.js.map"⟩, ⟨"b.js", "/b.js"⟩]).run
        [.claim, .claim, .claim]).inFlight.length = 2 ∧
    ((WebpackMinimalSentryPlugin.uploadSources
        ⟨⟨some "t"⟩, ⟨some "t", some "org", some "web", some "1.0.0", none, none, some 1⟩⟩
        [⟨"a.js", "/a.js"⟩, ⟨"a.js.map", "/a.js.map"⟩, ⟨"b.js", "/b.js"⟩]).run
        [.claim, .claim, .fulfil 0, .claim, .claim]).inFlight.length ≤ 1 :=
  ⟨Nat.le_antisymm
    (uploadSources_in_flight_bounded
      ⟨⟨some "t"⟩, ⟨some "t", some "org", some "web", some "1.0.0", none, none, some 2⟩⟩
      [⟨"a.js", "/a.js"⟩, ⟨"a.js.map", "/a.js.map"⟩, ⟨"b.js", "/b.js"⟩]
      [.claim, .claim, .claim]).1 (by decide),
   (uploadSources_in_flight_bounded
      ⟨⟨some "t"⟩, ⟨some "t", some "org", some "web", some "1.0.0", none, none, some 1⟩⟩
      [⟨"a.js", "/a.js"⟩, ⟨"a.js.map", "/a.js.map"⟩, ⟨"b.js", "/b.js"⟩]
      [.claim, .claim, .fulfil 0, .claim, .claim]).2 rfl rfl⟩

/-- C5. Called `N` times on an array of `N` sources, the supply function of
`uploadSources` starts the upload of every source exactly once (from the last
source to the first) and leaves the array empty; every later call returns
`null`. Hence in a run of the pool that has resolved, the uploads started are
those of the `N` sources, each once, and all of them were fulfilled. -/
theorem producer_claims_each_source_once (self : WebpackMinimalSentryPlugin)
    (sources : List SourceFileInfos) :
    (∀ extra : Nat,
      callRepeatedly (WebpackMinimalSentryPlugin.uploadSources.producer self)
          (sources.length + extra) sources =
        (sources.reverse.map (fun source => some (self.uploadSource source)) ++
          List.replicate extra none, [])) ∧
    (∀ schedule : List PoolEvent,
      ((self.uploadSources sources).run schedule).outcome = .resolved →
        ((self.uploadSources sources).run schedule).started =
          sources.reverse.map self.uploadSource ∧
        ((self.uploadSources sources).run schedule).fulfilled.Perm
          (sources.map self.uploadSource)) := by
  constructor
  · intro extra
    have h := callRepeatedly_reverse self sources.reverse extra
    rw [List.reverse_reverse, List.length_reverse] at h
    exact h
  · intro schedule hresolved
    have inv := poolInvariant_run self sources schedule
    obtain ⟨hrej, hex, hfl⟩ := (outcome_resolved_iff _).mp hresolved
    obtain ⟨claimed, hsupply, hstarted⟩ := inv.claimed
    have hempty := inv.exhausted_supply hex
    have hclaimed : claimed = sources.reverse := by
      rw [hempty, List.nil_append] at hsupply
      rw [← hsupply, List.reverse_reverse]
    have hst : ((self.uploadSources sources).run schedule).started =
        sources.reverse.map self.uploadSource := by
      rw [hstarted, hclaimed]
    refine ⟨hst, ?_⟩
    have hperm := inv.settled
    rw [hrej, hfl, hst] at hperm
    simp only [List.map_nil, List.append_nil] at hperm
    exact hperm.trans ((List.reverse_perm sources).map _)

/-- C5, at a concrete input: three calls on two sources, and a run that
resolves. -/
theorem producer_claims_each_source_once_witness :
    callRepeatedly (WebpackMinimalSentryPlugin.uploadSources.producer
        ⟨⟨some "t"⟩, ⟨some "t", some "org", some "web", some "1.0.0", none, none, none⟩⟩)
        3 [⟨"a.js", "/a.js"⟩, ⟨"a.js.map", "/a.js.map"⟩] =
      ([some (ServiceCall.releasesCreateFile (some "org") (some "web") (some "1.0.0")
          "a.js.map" "/a.js.map"),
        some (ServiceCall.releasesCreateFile (some "org") (some "web") (some "1.0.0")
          "a.js" "/a.js"),
        none], []) ∧
    ((WebpackMinimalSentryPlugin.uploadSources
        ⟨⟨some "t"⟩, ⟨some "t", some "org", some "web", some "1.0.0", none, none, none⟩⟩
        [⟨"a.js", "/a.js"⟩, ⟨"a.js.map", "/a.js.map"⟩]).run
        [.claim, .claim, .fulfil 1, .claim, .fulfil 0]).started =
      [ServiceCall.releasesCreateFile (some "org") (some "web") (some "1.0.0")
          "a.js.map" "/a.js.map",
        ServiceCall.releasesCreateFile (some "org") (some "web") (some "1.0.0")
          "a.js" "/a.js"] :=
  ⟨(producer_claims_each_source_once
      ⟨⟨some "t"⟩, ⟨some "t", some "org", some "web", some "1.0.0", none, none, none⟩⟩
      [⟨"a.js", "/a.js"⟩, ⟨"a.js.map", "/a.js.map"⟩]).1 1,
   ((producer_claims_each_source_once
      ⟨⟨some "t"⟩, ⟨some "t", some "org", some "web", some "1.0.0", none, none, none⟩⟩
      [⟨"a.js", "/a.js"⟩, ⟨"a.js.map", "/a.js.map"⟩]).2
      [.claim, .claim, .fulfil 1, .claim, .fulfil 0] (by decide)).1⟩

/-- C10. The limit that `uploadSources` passes to the pool is the configured
`uploadConcurrency` when that is a positive integer, and `Infinity` when the
option is absent. -/
theorem uploadSources_concurrency_limit (self : WebpackMinimalSentryPlugin)
    (sources : List SourceFileInfos) :
    (∀ n : Nat, self.options.uploadConcurrency = some n → 0 < n →
      (self.uploadSources sources).concurrency = .finite n) ∧
    (self.options.uploadConcurrency = none →
      (self.uploadSources sources).concurrency = .infinity) := by
  constructor
  · intro n hn hpos
    show WebpackMinimalSentryPlugin.uploadSources.concurrency self = .finite n
    unfold WebpackMinimalSentryPlugin.uploadSources.concurrency
    rw [hn]
    have hne : (n != 0) = true := by
      simp only [bne_iff_ne, ne_eq]
      omega
    simp only [hne, if_true]
  · intro hnone
    show WebpackMinimalSentryPlugin.uploadSources.concurrency self = .infinity
    unfold WebpackMinimalSentryPlugin.uploadSources.concurrency
    rw [hnone]

/-- C10, at a concrete input: `uploadConcurrency: 4`, and no `uploadConcurrency`. -/
theorem uploadSources_concurrency_limit_witness :
    (WebpackMinimalSentryPlugin.uploadSources
        ⟨⟨some "t"⟩, ⟨some "t", some "org", some "web", some "1.0.0", none, none, some 4⟩⟩
        [⟨"a.js", "/a.js"⟩]).concurrency = .finite 4 ∧
    (WebpackMinimalSentryPlugin.uploadSources
        ⟨⟨some "t"⟩, ⟨some "t", some "org", some "web", some "1.0.0", none, none, none⟩⟩
        [⟨"a.js", "/a.js"⟩]).concurrency = .infinity :=
  ⟨(uploadSources_concurrency_limit
      ⟨⟨some "t"⟩, ⟨some "t", some "org", some "web", some "1.0.0", none, none, some 4⟩⟩
      [⟨"a.js", "/a.js"⟩]).1 4 rfl (by decide),
   (uploadSources_concurrency_limit
      ⟨⟨some "t"⟩, ⟨some "t", some "org", some "web", some "1.0.0", none, none, none⟩⟩
      [⟨"a.js", "/a.js"⟩]).2 rfl⟩

/-! ## Uploading one source (C7) -/

/-- C7. `uploadSource` sends `releases.createFile` for the configured
organization, project and version, with the file opened at the source's path and
with the remote name `filenameTransform(name)` when a transform is configured
and `name` otherwise. With the transform `n => 'prefix/' + n` the source
`app.js` is uploaded as `prefix/app.js`. -/
theorem uploadSource_remote_name (self : WebpackMinimalSentryPlugin)
    (source : SourceFileInfos) :
    (∀ transform : String → String, self.options.filenameTransform = some transform →
      self.uploadSource source =
        ServiceCall.releasesCreateFile self.options.organization self.options.project
          self.options.version (transform source.name) source.path) ∧
    (self.options.filenameTransform = none →
      self.uploadSource source =
        ServiceCall.releasesCreateFile self.options.organization self.options.project
          self.options.version source.name source.path) ∧
    (self.options.filenameTransform = some (fun n => "prefix/" ++ n) →
      ∀ path : String, self.uploadSource ⟨"app.js", path⟩ =
        ServiceCall.releasesCreateFile self.options.organization self.options.project
          self.options.version "prefix/app.js" path) := by
  refine ⟨?_, ?_, ?_⟩
  · intro transform h
    unfold WebpackMinimalSentryPlugin.uploadSource
    rw [h]
  · intro h
    unfold WebpackMinimalSentryPlugin.uploadSource
    rw [h]
  · intro h path
    unfold WebpackMinimalSentryPlugin.uploadSource
    rw [h]
    rfl

/-- C7, at a concrete input: a transform that prepends a directory, and no
transform. -/
theorem uploadSource_remote_name_witness :
    WebpackMinimalSentryPlugin.uploadSource
        ⟨⟨some "t"⟩, ⟨some "t", some "org", some "web", some "1.0.0", none,
          some (fun n => "prefix/" ++ n), none⟩⟩ ⟨"app.js", "/dist/app.js"⟩ =
      ServiceCall.releasesCreateFile (some "org") (some "web") (some "1.0.0")
        "prefix/app.js" "/dist/app.js" ∧
    WebpackMinimalSentryPlugin.uploadSource
        ⟨⟨some "t"⟩, ⟨some "t", some "org", some "web", some "1.0.0", none, none, none⟩⟩
        ⟨"app.js", "/dist/app.js"⟩ =
      ServiceCall.releasesCreateFile (some "org") (some "web") (some "1.0.0")
        "app.js" "/dist/app.js" :=
  ⟨(uploadSource_remote_name
      ⟨⟨some "t"⟩, ⟨some "t", some "org", some "web", some "1.0.0", none,
        some (fun n => "prefix/" ++ n), none⟩⟩ ⟨"app.js", "/dist/app.js"⟩).2.2 rfl
      "/dist/app.js",
   (uploadSource_remote_name
      ⟨⟨some "t"⟩, ⟨some "t", some "org", some "web", some "1.0.0", none, none, none⟩⟩
      ⟨"app.js", "/dist/app.js"⟩).2.1 rfl⟩

/-! ## Lemmas: deleting files -/

theorem unlinkSync_ok (disk removed : Disk) (path : String)
    (h : unlinkSync disk path = .ok removed) :
    path ∈ disk.files ∧ removed.locked = disk.locked ∧
      ∀ file, file ∈ removed.files ↔ file ∈ disk.files ∧ file ≠ path := by
  unfold unlinkSync at h
  by_cases hmem : path ∈ disk.files
  · by_cases hlock : path ∈ disk.locked
    · simp [hmem, hlock] at h
    · simp only [hmem, hlock, if_true, if_false, Except.ok.injEq] at h
      subst h
      refine ⟨hmem, rfl, ?_⟩
      intro file
      simp [List.mem_filter]
  · simp [hmem] at h

theorem forEach_cons_ok (assets : AssetMap) (name : String) (names : List String)
    (asset : Asset) (disk removed : Disk) (hasset : assets.lookup name = some asset)
    (hunlink : unlinkSync disk asset.existsAt = .ok removed) :
    WebpackMinimalSentryPlugin.deleteSourcemaps.forEach assets (name :: names) disk =
      { WebpackMinimalSentryPlugin.deleteSourcemaps.forEach assets names removed with
        unlinkCalls := asset.existsAt ::
          (WebpackMinimalSentryPlugin.deleteSourcemaps.forEach assets names removed).unlinkCalls } := by
  simp only [WebpackMinimalSentryPlugin.deleteSourcemaps.forEach, AssetMap.read, hasset, hunlink]

theorem forEach_cons_error (assets : AssetMap) (name : String) (names : List String)
    (asset : Asset) (disk : Disk) (error : JSError) (hasset : assets.lookup name = some asset)
    (hunlink : unlinkSync disk asset.existsAt = .error error) :
    WebpackMinimalSentryPlugin.deleteSourcemaps.forEach assets (name :: names) disk =
      { disk := disk, unlinkCalls := [asset.existsAt], outcome := .rejected error } := by
  simp only [WebpackMinimalSentryPlugin.deleteSourcemaps.forEach, AssetMap.read, hasset, hunlink]

/-- A pass over the sourcemaps that resolves has unlinked every one of them, in
order, and has left the other files alone. -/
theorem forEach_resolved (assets : AssetMap) (entries : List (String × Asset))
    (hlookup : ∀ entry ∈ entries, assets.lookup entry.1 = some entry.2) (disk : Disk)
    (hresolved : (WebpackMinimalSentryPlugin.deleteSourcemaps.forEach assets
      (entries.map Prod.fst) disk).outcome = .resolved) :
    (WebpackMinimalSentryPlugin.deleteSourcemaps.forEach assets
        (entries.map Prod.fst) disk).unlinkCalls = entries.map (fun entry => entry.2.existsAt) ∧
    (∀ path ∈ entries.map (fun entry => entry.2.existsAt), path ∈ disk.files) ∧
    (∀ file, file ∈ (WebpackMinimalSentryPlugin.deleteSourcemaps.forEach assets
        (entries.map Prod.fst) disk).disk.files ↔
      file ∈ disk.files ∧ file ∉ entries.map (fun entry => entry.2.existsAt)) ∧
    (WebpackMinimalSentryPlugin.deleteSourcemaps.forEach assets
        (entries.map Prod.fst) disk).disk.locked = disk.locked := by
  induction entries generalizing disk with
  | nil =>
    simp [WebpackMinimalSentryPlugin.deleteSourcemaps.forEach]
  | cons entry rest ih =>
    have hasset := hlookup entry (List.mem_cons_self _ _)
    have hrest : ∀ e ∈ rest, assets.lookup e.1 = some e.2 :=
      fun e he => hlookup e (List.mem_cons_of_mem _ he)
    rw [List.map_cons] at hresolved ⊢
    cases hunlink : unlinkSync disk entry.2.existsAt with
    | error error =>
      rw [forEach_cons_error assets entry.1 _ entry.2 disk error hasset hunlink] at hresolved
      exact absurd hresolved (by simp)
    | ok removed =>
      rw [forEach_cons_ok assets entry.1 _ entry.2 disk removed hasset hunlink] at hresolved ⊢
      obtain ⟨hcalls, hwere, hfiles, hlocked⟩ := ih hrest removed hresolved
      obtain ⟨hmem, hlock, hremoved⟩ := unlinkSync_ok disk removed entry.2.existsAt hunlink
      refine ⟨?_, ?_, ?_, ?_⟩
      · simp only [hcalls, List.map_cons]
      · intro path hpath
        rw [List.map_cons, List.mem_cons] at hpath
        rcases hpath with h | h
        · rw [h]; exact hmem
        · exact ((hremoved path).mp (hwere path h)).1
      · intro file
        show file ∈ (WebpackMinimalSentryPlugin.deleteSourcemaps.forEach assets
          (rest.map Prod.fst) removed).disk.files ↔ _
        rw [hfiles file, hremoved file, List.map_cons, List.mem_cons]
        tauto
      · show (WebpackMinimalSentryPlugin.deleteSourcemaps.forEach assets
          (rest.map Prod.fst) removed).disk.locked = disk.locked
        rw [hlocked, hlock]

/-- A pass over the sourcemaps stops at the first one that cannot be unlinked. -/
theorem forEach_first_failure (assets : AssetMap) (earlier later : List (String × Asset))
    (failing : String × Asset) (error : JSError)
    (hlookup : ∀ entry ∈ earlier ++ failing :: later, assets.lookup entry.1 = some entry.2)
    (disk : Disk)
    (hearlier : (WebpackMinimalSentryPlugin.deleteSourcemaps.forEach assets
      (earlier.map Prod.fst) disk).outcome = .resolved)
    (hfail : unlinkSync (WebpackMinimalSentryPlugin.deleteSourcemaps.forEach assets
      (earlier.map Prod.fst) disk).disk failing.2.existsAt = .error error) :
    WebpackMinimalSentryPlugin.deleteSourcemaps.forEach assets
        ((earlier ++ failing :: later).map Prod.fst) disk =
      { disk := (WebpackMinimalSentryPlugin.deleteSourcemaps.forEach assets
          (earlier.map Prod.fst) disk).disk,
        unlinkCalls := (earlier ++ [failing]).map (fun entry => entry.2.existsAt),
        outcome := .rejected error } := by
  induction earlier generalizing disk with
  | nil =>
    have hasset := hlookup failing (by simp)
    simp only [List.map_nil, WebpackMinimalSentryPlugin.deleteSourcemaps.forEach] at hfail
    simp only [List.nil_append, List.map_cons, List.map_nil]
    rw [forEach_cons_error assets failing.1 _ failing.2 disk error hasset hfail]
    simp only [WebpackMinimalSentryPlugin.deleteSourcemaps.forEach]
  | cons entry rest ih =>
    have hasset := hlookup entry (by simp)
    have hrest : ∀ e ∈ rest ++ failing :: later, assets.lookup e.1 = some e.2 :=
      fun e he => hlookup e (by rw [List.cons_append]; exact List.mem_cons_of_mem _ he)
    rw [List.map_cons] at hearlier hfail
    simp only [List.cons_append, List.map_cons]
    cases hunlink : unlinkSync disk entry.2.existsAt with
    | error e2 =>
      rw [forEach_cons_error assets entry.1 _ entry.2 disk e2 hasset hunlink] at hearlier
      exact absurd hearlier (by simp)
    | ok removed =>
      rw [forEach_cons_ok assets entry.1 _ entry.2 disk removed hasset hunlink]
        at hearlier hfail
      have hnext := ih hrest removed hearlier hfail
      rw [forEach_cons_ok assets entry.1 _ entry.2 disk removed hasset hunlink,
        forEach_cons_ok assets entry.1 _ entry.2 disk removed hasset hunlink, hnext]

theorem sourcemap_keys_eq (assets : AssetMap) :
    assets.keys.filter (fun name => SOURCEMAP_REGEXP.test name) =
      (assets.filter (fun entry => decide (".map".data <:+ entry.1.data))).map Prod.fst := by
  have hfun : (fun entry : String × Asset => decide (".map".data <:+ entry.1.data)) =
      (fun name => SOURCEMAP_REGEXP.test name) ∘ Prod.fst := by
    funext entry
    simp only [Function.comp]
    rw [Bool.eq_iff_iff, test_iff_suffix, decide_eq_true_iff]
    exact Iff.rfl
  rw [hfun, AssetMap.keys, List.filter_map]

theorem sourcemap_lookup (assets : AssetMap) (hkeys : assets.keys.Nodup) :
    ∀ entry ∈ assets.filter (fun entry => decide (".map".data <:+ entry.1.data)),
      assets.lookup entry.1 = some entry.2 :=
  fun entry he =>
    lookup_of_mem_of_nodup assets hkeys entry.1 entry.2 (List.mem_filter.mp he).1

theorem unlinkSync_removable (disk : Disk) (path : String) (hmem : path ∈ disk.files)
    (hlock : path ∉ disk.locked) :
    unlinkSync disk path =
      .ok { files := disk.files.filter (fun file => file != path), locked := disk.locked } := by
  unfold unlinkSync
  simp only [hmem, hlock, if_true, if_false]

theorem unlinkSync_fails (disk : Disk) (path : String)
    (h : path ∉ disk.files ∨ path ∈ disk.locked) :
    ∃ error, unlinkSync disk path = .error error := by
  unfold unlinkSync
  by_cases hmem : path ∈ disk.files
  · rcases h with h | h
    · exact absurd hmem h
    · refine ⟨⟨"EPERM: operation not permitted, unlink"⟩, ?_⟩
      simp only [hmem, h, if_true]
  · refine ⟨⟨"ENOENT: no such file or directory, unlink"⟩, ?_⟩
    simp only [hmem, if_false]

/-- A pass over sourcemaps whose files are all on disk, removable and distinct
unlinks every one of them, in order, and resolves. -/
theorem forEach_all_removable (assets : AssetMap) (entries : List (String × Asset))
    (hlookup : ∀ entry ∈ entries, assets.lookup entry.1 = some entry.2) (disk : Disk)
    (hpresent : ∀ path ∈ entries.map (fun entry => entry.2.existsAt),
      path ∈ disk.files ∧ path ∉ disk.locked)
    (hdistinct : (entries.map (fun entry => entry.2.existsAt)).Nodup) :
    WebpackMinimalSentryPlugin.deleteSourcemaps.forEach assets (entries.map Prod.fst) disk =
      { disk :=
          { files := disk.files.filter
              (fun file => decide (file ∉ entries.map (fun entry => entry.2.existsAt))),
            locked := disk.locked },
        unlinkCalls := entries.map (fun entry => entry.2.existsAt),
        outcome := .resolved } := by
  induction entries generalizing disk with
  | nil =>
    simp [WebpackMinimalSentryPlugin.deleteSourcemaps.forEach]
  | cons entry rest ih =>
    have hasset := hlookup entry (List.mem_cons_self _ _)
    have hrest : ∀ e ∈ rest, assets.lookup e.1 = some e.2 :=
      fun e he => hlookup e (List.mem_cons_of_mem _ he)
    rw [List.map_cons, List.nodup_cons] at hdistinct
    obtain ⟨hhead, htail⟩ := hpresent entry.2.existsAt (by simp)
    have hunlink := unlinkSync_removable disk entry.2.existsAt hhead htail
    have hpresent2 : ∀ path ∈ rest.map (fun e => e.2.existsAt),
        path ∈ ({ files := disk.files.filter (fun file => file != entry.2.existsAt),
                  locked := disk.locked } : Disk).files ∧
        path ∉ ({ files := disk.files.filter (fun file => file != entry.2.existsAt),
                  locked := disk.locked } : Disk).locked := by
      intro path hpath
      obtain ⟨h1, h2⟩ := hpresent path (by rw [List.map_cons]; exact List.mem_cons_of_mem _ hpath)
      refine ⟨?_, h2⟩
      have hne : path ≠ entry.2.existsAt := by
        intro h
        rw [h] at hpath
        exact hdistinct.1 hpath
      simp only [List.mem_filter, bne_iff_ne, ne_eq]
      exact ⟨h1, hne⟩
    rw [List.map_cons, forEach_cons_ok assets entry.1 _ entry.2 disk _ hasset hunlink,
      ih hrest _ hpresent2 hdistinct.2]
    have hfilter : List.filter
        (fun file => decide (file ∉ rest.map (fun e => e.2.existsAt)))
        (List.filter (fun file => file != entry.2.existsAt) disk.files) =
        List.filter
          (fun file => decide (file ∉ (entry :: rest).map (fun e => e.2.existsAt)))
          disk.files := by
      rw [List.filter_filter]
      congr 1
      funext file
      rw [Bool.eq_iff_iff]
      simp only [Bool.and_eq_true, decide_eq_true_iff, bne_iff_ne, ne_eq, List.map_cons,
        List.mem_cons, not_or]
      tauto
    simp only [hfilter, List.map_cons]

/-! ## Deleting the sourcemaps (C8, C9) -/

/-- C8. Let `deleteSourcemaps` be `true`. When the files of the assets whose name
ends in ".map" are on disk, removable and distinct (every deletion succeeds), the
`done` handler resolves, having called `fs.unlinkSync` with exactly the
`existsAt` paths of these assets, in the order of the keys; these files are gone
from the disk, every other file is still there and nothing else has changed.
Conversely, whenever the handler resolves, it has called `fs.unlinkSync` with
exactly these paths, each was on disk, and the files left are the others. When
`deleteSourcemaps` is `false` or absent the handler resolves without calling
`fs.unlinkSync` and leaves the disk as it was. -/
theorem done_deletes_exactly_sourcemaps (self : WebpackMinimalSentryPlugin) (stats : Stats)
    (disk : Disk) (hkeys : stats.compilation.assets.keys.Nodup) :
    (self.options.deleteSourcemaps = some true →
      (∀ path ∈ (stats.compilation.assets.filter
          (fun entry => decide (".map".data <:+ entry.1.data))).map
          (fun entry => entry.2.existsAt), path ∈ disk.files ∧ path ∉ disk.locked) →
      ((stats.compilation.assets.filter
          (fun entry => decide (".map".data <:+ entry.1.data))).map
          (fun entry => entry.2.existsAt)).Nodup →
        self.done stats disk =
          { disk :=
              { files := disk.files.filter (fun file =>
                  decide (file ∉ (stats.compilation.assets.filter
                    (fun entry => decide (".map".data <:+ entry.1.data))).map
                    (fun entry => entry.2.existsAt))),
                locked := disk.locked },
            unlinkCalls := (stats.compilation.assets.filter
              (fun entry => decide (".map".data <:+ entry.1.data))).map
              (fun entry => entry.2.existsAt),
            outcome := .resolved }) ∧
    (self.options.deleteSourcemaps = some true →
      (self.done stats disk).outcome = .resolved →
        (self.done stats disk).unlinkCalls =
          (stats.compilation.assets.filter
            (fun entry => decide (".map".data <:+ entry.1.data))).map
            (fun entry => entry.2.existsAt) ∧
        (∀ path ∈ (self.done stats disk).unlinkCalls, path ∈ disk.files) ∧
        (∀ file, file ∈ (self.done stats disk).disk.files ↔
          file ∈ disk.files ∧ file ∉ (self.done stats disk).unlinkCalls) ∧
        (self.done stats disk).disk.locked = disk.locked) ∧
    ((self.options.deleteSourcemaps = some false ∨ self.options.deleteSourcemaps = none) →
      self.done stats disk = { disk := disk, unlinkCalls := [], outcome := .resolved }) := by
  have hdone : self.options.deleteSourcemaps = some true → self.done stats disk =
      WebpackMinimalSentryPlugin.deleteSourcemaps.forEach stats.compilation.assets
        ((stats.compilation.assets.filter
          (fun entry => decide (".map".data <:+ entry.1.data))).map Prod.fst) disk := by
    intro htrue
    unfold WebpackMinimalSentryPlugin.done WebpackMinimalSentryPlugin.deleteSourcemaps
    rw [htrue, sourcemap_keys_eq]
    rfl
  refine ⟨?_, ?_, ?_⟩
  · intro htrue hpresent hdistinct
    rw [hdone htrue]
    exact forEach_all_removable stats.compilation.assets _
      (sourcemap_lookup stats.compilation.assets hkeys) disk hpresent hdistinct
  · intro htrue
    rw [hdone htrue]
    intro hresolved
    obtain ⟨hcalls, hwere, hfiles, hlocked⟩ := forEach_resolved stats.compilation.assets _
      (sourcemap_lookup stats.compilation.assets hkeys) disk hresolved
    rw [hcalls]
    exact ⟨rfl, hwere, hfiles, hlocked⟩
  · intro hoff
    unfold WebpackMinimalSentryPlugin.done
    rcases hoff with h | h <;> rw [h] <;> rfl

/-- C8, at a concrete input: three sourcemaps among five assets; the three are
removed, in the order of the keys, and the other files stay. With the option
absent nothing is removed. -/
theorem done_deletes_exactly_sourcemaps_witness :
    WebpackMinimalSentryPlugin.done
        ⟨⟨some "t"⟩, ⟨some "t", some "org", some "web", some "1.0.0", some true, none, none⟩⟩
        ⟨⟨[("app.js", ⟨"/dist/app.js"⟩), ("app.js.map", ⟨"/dist/app.js.map"⟩),
          ("lib.js.map", ⟨"/dist/lib.js.map"⟩), ("lib.js", ⟨"/dist/lib.js"⟩),
          ("app.css.map", ⟨"/dist/app.css.map"⟩)]⟩⟩
        ⟨["/dist/app.css.map", "/dist/app.js", "/dist/app.js.map", "/dist/index.html",
          "/dist/lib.js", "/dist/lib.js.map"], ["/dist/index.html"]⟩ =
      { disk := ⟨["/dist/app.js", "/dist/index.html", "/dist/lib.js"], ["/dist/index.html"]⟩,
        unlinkCalls := ["/dist/app.js.map", "/dist/lib.js.map", "/dist/app.css.map"],
        outcome := .resolved } ∧
    WebpackMinimalSentryPlugin.done
        ⟨⟨some "t"⟩, ⟨some "t", some "org", some "web", some "1.0.0", none, none, none⟩⟩
        ⟨⟨[("app.js", ⟨"/dist/app.js"⟩), ("app.js.map", ⟨"/dist/app.js.map"⟩)]⟩⟩
        ⟨["/dist/app.js", "/dist/app.js.map", "/dist/index.html"], []⟩ =
      { disk := ⟨["/dist/app.js", "/dist/app.js.map", "/dist/index.html"], []⟩,
        unlinkCalls := [], outcome := .resolved } :=
  ⟨((done_deletes_exactly_sourcemaps
      ⟨⟨some "t"⟩, ⟨some "t", some "org", some "web", some "1.0.0", some true, none, none⟩⟩
      ⟨⟨[("app.js", ⟨"/dist/app.js"⟩), ("app.js.map", ⟨"/dist/app.js.map"⟩),
        ("lib.js.map", ⟨"/dist/lib.js.map"⟩), ("lib.js", ⟨"/dist/lib.js"⟩),
        ("app.css.map", ⟨"/dist/app.css.map"⟩)]⟩⟩
      ⟨["/dist/app.css.map", "/dist/app.js", "/dist/app.js.map", "/dist/index.html",
        "/dist/lib.js", "/dist/lib.js.map"], ["/dist/index.html"]⟩ (by decide)).1
      rfl (by decide) (by decide)).trans (by decide),
   (done_deletes_exactly_sourcemaps
      ⟨⟨some "t"⟩, ⟨some "t", some "org", some "web", some "1.0.0", none, none, none⟩⟩
      ⟨⟨[("app.js", ⟨"/dist/app.js"⟩), ("app.js.map", ⟨"/dist/app.js.map"⟩)]⟩⟩
      ⟨["/dist/app.js", "/dist/app.js.map", "/dist/index.html"], []⟩ (by decide)).2.2
      (Or.inr rfl)⟩

/-- C9. Let the sourcemaps of the asset dictionary be `earlier`, then `failing`,
then `later`, in the order of the keys. Let the files of `earlier` be on disk,
removable and distinct, and let the file of `failing` be one that cannot be
deleted: it is not on disk, or it may not be removed, or it is one of the files
of `earlier`, deleted by then. Then `fs.unlinkSync` throws an error for `failing`
and `deleteSourcemaps` is rejected with that error, and so is the `done` handler
that awaits it; the files of `earlier` are gone from the disk and every other
file is still there; `fs.unlinkSync` was called for `earlier` and `failing`, in
this order, and for none of `later`. -/
theorem deleteSourcemaps_aborts_on_first_failure (self : WebpackMinimalSentryPlugin)
    (stats : Stats) (disk : Disk) (hkeys : stats.compilation.assets.keys.Nodup)
    (earlier later : List (String × Asset)) (failing : String × Asset)
    (hsplit : stats.compilation.assets.filter
      (fun entry => decide (".map".data <:+ entry.1.data)) = earlier ++ failing :: later)
    (hpresent : ∀ path ∈ earlier.map (fun entry => entry.2.existsAt),
      path ∈ disk.files ∧ path ∉ disk.locked)
    (hdistinct : (earlier.map (fun entry => entry.2.existsAt)).Nodup)
    (hfailing : failing.2.existsAt ∉ disk.files ∨ failing.2.existsAt ∈ disk.locked ∨
      failing.2.existsAt ∈ earlier.map (fun entry => entry.2.existsAt)) :
    ∃ error : JSError,
      unlinkSync
          { files := disk.files.filter
              (fun file => decide (file ∉ earlier.map (fun entry => entry.2.existsAt))),
            locked := disk.locked } failing.2.existsAt = .error error ∧
      WebpackMinimalSentryPlugin.deleteSourcemaps stats disk =
        { disk :=
            { files := disk.files.filter
                (fun file => decide (file ∉ earlier.map (fun entry => entry.2.existsAt))),
              locked := disk.locked },
          unlinkCalls := (earlier ++ [failing]).map (fun entry => entry.2.existsAt),
          outcome := .rejected error } ∧
      (self.options.deleteSourcemaps = some true →
        self.done stats disk =
          { disk :=
              { files := disk.files.filter
                  (fun file => decide (file ∉ earlier.map (fun entry => entry.2.existsAt))),
                locked := disk.locked },
            unlinkCalls := (earlier ++ [failing]).map (fun entry => entry.2.existsAt),
            outcome := .rejected error }) := by
  have hlookup : ∀ entry ∈ earlier ++ failing :: later,
      stats.compilation.assets.lookup entry.1 = some entry.2 := by
    rw [← hsplit]
    exact sourcemap_lookup stats.compilation.assets hkeys
  have hprefix : ∀ entry ∈ earlier, stats.compilation.assets.lookup entry.1 = some entry.2 :=
    fun entry he => hlookup entry (List.mem_append_left _ he)
  have hpass := forEach_all_removable stats.compilation.assets earlier hprefix disk
    hpresent hdistinct
  have hcannot :
      failing.2.existsAt ∉
        ({ files := disk.files.filter
              (fun file => decide (file ∉ earlier.map (fun entry => entry.2.existsAt))),
           locked := disk.locked } : Disk).files ∨
      failing.2.existsAt ∈
        ({ files := disk.files.filter
              (fun file => decide (file ∉ earlier.map (fun entry => entry.2.existsAt))),
           locked := disk.locked } : Disk).locked := by
    rcases hfailing with h | h | h
    · left
      intro hmem
      exact h (List.mem_filter.mp hmem).1
    · right
      exact h
    · left
      intro hmem
      have hnot := (List.mem_filter.mp hmem).2
      simp only [decide_eq_true_iff] at hnot
      exact hnot h
  obtain ⟨error, herror⟩ := unlinkSync_fails _ failing.2.existsAt hcannot
  have hearlier : (WebpackMinimalSentryPlugin.deleteSourcemaps.forEach stats.compilation.assets
      (earlier.map Prod.fst) disk).outcome = .resolved := by rw [hpass]
  have hfail : unlinkSync (WebpackMinimalSentryPlugin.deleteSourcemaps.forEach
      stats.compilation.assets (earlier.map Prod.fst) disk).disk failing.2.existsAt =
        .error error := by rw [hpass]; exact herror
  have hrun : WebpackMinimalSentryPlugin.deleteSourcemaps stats disk =
      { disk :=
          { files := disk.files.filter
              (fun file => decide (file ∉ earlier.map (fun entry => entry.2.existsAt))),
            locked := disk.locked },
        unlinkCalls := (earlier ++ [failing]).map (fun entry => entry.2.existsAt),
        outcome := .rejected error } := by
    unfold WebpackMinimalSentryPlugin.deleteSourcemaps
    rw [sourcemap_keys_eq, hsplit,
      forEach_first_failure stats.compilation.assets earlier later failing error hlookup
        disk hearlier hfail, hpass]
  refine ⟨error, herror, hrun, ?_⟩
  intro htrue
  rw [← hrun]
  unfold WebpackMinimalSentryPlugin.done
  rw [htrue]
  rfl

/-- C9, at a concrete input: four sourcemaps, the third of which may not be
removed. The first two are deleted, the fourth is never tried. -/
theorem deleteSourcemaps_aborts_on_first_failure_witness :
    WebpackMinimalSentryPlugin.done
        ⟨⟨some "t"⟩, ⟨some "t", some "org", some "web", some "1.0.0", some true, none, none⟩⟩
        ⟨⟨[("a.js.map", ⟨"/a.js.map"⟩), ("a.js", ⟨"/a.js"⟩), ("b.js.map", ⟨"/b.js.map"⟩),
          ("c.js.map", ⟨"/c.js.map"⟩), ("d.js.map", ⟨"/d.js.map"⟩)]⟩⟩
        ⟨["/a.js", "/a.js.map", "/b.js.map", "/c.js.map", "/d.js.map"], ["/c.js.map"]⟩ =
      { disk := ⟨["/a.js", "/c.js.map", "/d.js.map"], ["/c.js.map"]⟩,
        unlinkCalls := ["/a.js.map", "/b.js.map", "/c.js.map"],
        outcome := .rejected ⟨"EPERM: operation not permitted, unlink"⟩ } := by
  obtain ⟨error, herror, _, hdone⟩ := deleteSourcemaps_aborts_on_first_failure
    ⟨⟨some "t"⟩, ⟨some "t", some "org", some "web", some "1.0.0", some true, none, none⟩⟩
    ⟨⟨[("a.js.map", ⟨"/a.js.map"⟩), ("a.js", ⟨"/a.js"⟩), ("b.js.map", ⟨"/b.js.map"⟩),
      ("c.js.map", ⟨"/c.js.map"⟩), ("d.js.map", ⟨"/d.js.map"⟩)]⟩⟩
    ⟨["/a.js", "/a.js.map", "/b.js.map", "/c.js.map", "/d.js.map"], ["/c.js.map"]⟩ (by decide)
    [("a.js.map", ⟨"/a.js.map"⟩), ("b.js.map", ⟨"/b.js.map"⟩)] [("d.js.map", ⟨"/d.js.map"⟩)]
    ("c.js.map", ⟨"/c.js.map"⟩) (by decide) (by decide) (by decide) (by decide)
  have hthrown : (Except.error error : Except JSError Disk) =
      .error ⟨"EPERM: operation not permitted, unlink"⟩ := herror.symm.trans rfl
  injection hthrown with hthrown
  subst hthrown
  rw [hdone rfl]
  decide

end WebpackMinimalSentry
